import Mathlib

/-!
Verification of the Elements mesh-conversion scripts.

The repository consists of two Python scripts:
  * `extract_mesh.py` (the Extractor): scans an HTML document for the regex
    patterns `vertices\s*:\s*\[([\s\S]*?)\]` and `faceTriIds\s*:\s*\[([\s\S]*?)\]`,
    parses the captured regions into a float list and an int list, and writes
    them (with progress messages) to `Elements/ClothData.json`.
  * `generate_swift_data.py` (the Renderer): reads that intermediate file and
    writes `Elements/ClothReferenceData.swift`, a Swift source file declaring
    the two arrays, 12 values per line, floats printed with `%.6f`.

The embedding below models text as `List Char`, Python floats as exact
rationals (`%.6f` formatting is modelled as round-half-even to 6 decimal
places, which is what Python's correctly-rounded formatting computes on the
modelled value), and Python ints as `ℤ`.  Fallible parsing returns `Option`;
the whole Extractor run returns `Except PyError`, distinguishing a `ValueError`
raised while parsing a numeric token from the `NameError` raised at the
`data = {...}` line when a regex pattern did not match and the corresponding
variable was never bound.
-/

set_option maxHeartbeats 1000000

namespace Elements

/-- The ASCII characters matched by Python's `\s` and split on by `str.split()`
(space, tab, newline, carriage return, vertical tab, form feed).  Non-ASCII
whitespace is not modelled; the source documents are ASCII. -/
def isPySpace (c : Char) : Bool :=
  c = ' ' || c = '\t' || c = '\n' || c = '\r' || c = '\x0b' || c = '\x0c'

/-- Match a literal character sequence at the head of the input, returning the
rest of the input on success (the regex engine's handling of the literal part
`vertices` / `faceTriIds` of the pattern). -/
def dropLiteral : List Char → List Char → Option (List Char)
  | [], l => some l
  | _ :: _, [] => none
  | p :: ps, c :: cs => if c = p then dropLiteral ps cs else none

/-- Whether the literal `p` occurs at the very start of `l`. -/
def startsWithL (p l : List Char) : Bool := (dropLiteral p l).isSome

/-- Greedily drop `\s*`: the longest run of whitespace at the head. -/
def dropWS : List Char → List Char
  | [] => []
  | c :: cs => if isPySpace c then dropWS cs else c :: cs

/-- Match the pattern prefix `MARKER\s*:\s*\[` at the head of `l`; on success
return the input just after the opening bracket. -/
def matchHead (marker l : List Char) : Option (List Char) :=
  match dropLiteral marker l with
  | none => none
  | some l1 =>
    match dropWS l1 with
    | ':' :: l2 =>
      match dropWS l2 with
      | '[' :: l3 => some l3
      | _ => none
    | _ => none

/-- The non-greedy capture `([\s\S]*?)\]`: everything up to the first `]`;
fails if no closing bracket follows. -/
def captureUntil : List Char → Option (List Char)
  | [] => none
  | c :: cs => if c = ']' then some [] else (captureUntil cs).map fun r => c :: r

/-- Attempt the whole pattern `MARKER\s*:\s*\[([\s\S]*?)\]` at the current
position, returning the capture group. -/
def tryHere (marker l : List Char) : Option (List Char) :=
  (matchHead marker l).bind captureUntil

/-- `re.search`: try the pattern at each position left to right and return the
capture group of the leftmost successful match. -/
def reSearch (marker : List Char) : List Char → Option (List Char)
  | [] => tryHere marker []
  | c :: cs =>
    match tryHere marker (c :: cs) with
    | some r => some r
    | none => reSearch marker cs

/-- `s.replace(',', ' ')`. -/
def normComma (l : List Char) : List Char := l.map fun c => if c = ',' then ' ' else c

/-- Helper for `str.split()`: accumulates the current (reversed) token. -/
def splitWSAux : List Char → List Char → List (List Char)
  | [], acc => if acc.isEmpty then [] else [acc.reverse]
  | c :: cs, acc =>
    if isPySpace c then
      if acc.isEmpty then splitWSAux cs [] else acc.reverse :: splitWSAux cs []
    else splitWSAux cs (c :: acc)

/-- `s.replace(',', ' ').split()`: the whitespace-delimited tokens of a
captured region after normalizing commas to spaces. -/
def pyTokens (l : List Char) : List (List Char) := splitWSAux (normComma l) []

/-- The numeric value of a decimal digit character, if it is one. -/
def digit? (c : Char) : Option Nat :=
  if '0' ≤ c ∧ c ≤ '9' then some (c.toNat - 48) else none

/-- Consume the longest digit run at the head of the input, returning its
value, the number of digits consumed, and the rest. -/
def takeDigits : List Char → Nat × Nat × List Char
  | [] => (0, 0, [])
  | c :: cs =>
    match digit? c with
    | none => (0, 0, c :: cs)
    | some d =>
      let t := takeDigits cs
      (d * 10 ^ t.2.1 + t.1, t.2.1 + 1, t.2.2)

/-- The value of an all-digit character list read most-significant first
(used only in proofs, to name what `takeDigits` computes). -/
def valOf : List Char → Nat
  | [] => 0
  | c :: cs => (digit? c).getD 0 * 10 ^ cs.length + valOf cs

/-- Strip an optional leading sign, reporting whether it was a minus. -/
def stripNeg : List Char → Bool × List Char
  | [] => (false, [])
  | c :: cs => if c = '-' then (true, cs) else if c = '+' then (false, cs) else (false, c :: cs)

/-- Parse the exponent part of a Python float literal: an optional sign and a
nonempty digit run consuming the whole rest of the token. -/
def pyExp? (l : List Char) : Option ℤ :=
  let sn := stripNeg l
  let t := takeDigits sn.2
  if t.2.1 = 0 ∨ t.2.2 ≠ [] then none
  else some ((if sn.1 then -1 else 1) * (t.1 : ℤ))

/-- Continuation of `pyFloat?` after the integer-part digits: the token may
end, or continue with a fractional part and/or an exponent. -/
def pyFloatCore (sgn : ℚ) (ip : Nat) (ni : Nat) : List Char → Option ℚ
  | [] => if ni = 0 then none else some (sgn * (ip : ℚ))
  | '.' :: l3 =>
    let t := takeDigits l3
    if ni = 0 ∧ t.2.1 = 0 then none
    else
      match t.2.2 with
      | [] => some (sgn * ((ip : ℚ) + (t.1 : ℚ) / 10 ^ t.2.1))
      | 'e' :: l5 => (pyExp? l5).map fun e => sgn * ((ip : ℚ) + (t.1 : ℚ) / 10 ^ t.2.1) * 10 ^ e
      | 'E' :: l5 => (pyExp? l5).map fun e => sgn * ((ip : ℚ) + (t.1 : ℚ) / 10 ^ t.2.1) * 10 ^ e
      | _ => none
  | 'e' :: l5 => if ni = 0 then none else (pyExp? l5).map fun e => sgn * (ip : ℚ) * 10 ^ e
  | 'E' :: l5 => if ni = 0 then none else (pyExp? l5).map fun e => sgn * (ip : ℚ) * 10 ^ e
  | _ => none

/-- Python's `float(token)` on a numeric literal, modelled over exact
rationals: optional sign, digits with optional decimal point (at least one
digit overall), optional exponent.  The special forms `inf`/`nan`, underscore
separators, and surrounding whitespace (tokens from `split()` have none) are
not modelled. -/
def pyFloat? (l : List Char) : Option ℚ :=
  let sn := stripNeg l
  let t := takeDigits sn.2
  pyFloatCore (if sn.1 then -1 else 1) t.1 t.2.1 t.2.2

/-- Python's `int(token)`: an optional sign and a nonempty digit run making up
the whole token (underscore separators and surrounding whitespace are not
modelled). -/
def pyInt? (l : List Char) : Option ℤ :=
  let sn := stripNeg l
  let t := takeDigits sn.2
  if t.2.1 = 0 ∨ t.2.2 ≠ [] then none
  else some ((if sn.1 then -1 else 1) * (t.1 : ℤ))

/-- The decimal digit characters. -/
def digitChar : Nat → Char
  | 0 => '0'
  | 1 => '1'
  | 2 => '2'
  | 3 => '3'
  | 4 => '4'
  | 5 => '5'
  | 6 => '6'
  | 7 => '7'
  | 8 => '8'
  | 9 => '9'
  | _ => '!'

/-- Fuel-indexed decimal rendering of a natural number, most significant digit
first (any fuel above the number itself gives the true digit string). -/
def natDigitsAux : Nat → Nat → List Char
  | 0, _ => []
  | fuel + 1, n => if n < 10 then [digitChar n] else natDigitsAux fuel (n / 10) ++ [digitChar (n % 10)]

/-- The decimal digit string of a natural number (Python's `str` on a
nonnegative int). -/
def natDigits (n : Nat) : List Char := natDigitsAux (n + 1) n

/-- Python's `str(x)` for an int: optional minus sign and the decimal digits. -/
def intStr (n : ℤ) : List Char := (if n < 0 then ['-'] else []) ++ natDigits n.natAbs

/-- Parse every token of a list, failing if any single parse fails (a Python
list comprehension `[float(x) for x in tokens]` raises on the first bad
token and produces nothing). -/
def parseAll (f : List Char → Option α) : List (List Char) → Option (List α)
  | [] => some []
  | t :: ts =>
    match f t, parseAll f ts with
    | some v, some vs => some (v :: vs)
    | _, _ => none

/-- The literal part of the vertices pattern. -/
def vMarker : List Char := ("vertices").toList

/-- The literal part of the triangle-index pattern. -/
def iMarker : List Char := ("faceTriIds").toList

/-- `re.search(r'vertices\s*:\s*\[([\s\S]*?)\]', content)`, as the capture. -/
def vMatch (content : List Char) : Option (List Char) := reSearch vMarker content

/-- `re.search(r'faceTriIds\s*:\s*\[([\s\S]*?)\]', content)`, as the capture. -/
def iMatch (content : List Char) : Option (List Char) := reSearch iMarker content

/-- The `vertices` list the Extractor binds when the pattern matches:
`[float(x) for x in v_str.replace(',', ' ').split()]`. -/
def verticesOf (content : List Char) : Option (List ℚ) :=
  (vMatch content).bind fun b => parseAll pyFloat? (pyTokens b)

/-- The `indices` list the Extractor binds when the pattern matches:
`[int(x) for x in i_str.replace(',', ' ').split()]`. -/
def indicesOf (content : List Char) : Option (List ℤ) :=
  (iMatch content).bind fun b => parseAll pyInt? (pyTokens b)

/-- The two ways an Extractor run aborts: a `ValueError` from `float()`/`int()`
on a malformed token, or the `NameError` at `data = {"vertices": vertices, ...}`
when a pattern never matched and its variable is unbound. -/
inductive PyError where
  | valueError : PyError
  | nameError : PyError
deriving DecidableEq

/-- The intermediate artifact `Elements/ClothData.json`: the mapping with keys
`vertices` and `indices` (modelled post-JSON, as the two sequences). -/
structure MeshData where
  vertices : List ℚ
  indices : List ℤ
deriving DecidableEq

/-- `f"Extracted {len(vertices)//3} vertices"`. -/
def extractedVerticesMsg (n : Nat) : List Char :=
  ("Extracted ").toList ++ natDigits n ++ (" vertices").toList

/-- `f"Extracted {len(indices)//3} triangles"`. -/
def extractedTrianglesMsg (n : Nat) : List Char :=
  ("Extracted ").toList ++ natDigits n ++ (" triangles").toList

/-- `"Saved to Elements/ClothData.json"`. -/
def savedMsg : List Char := ("Saved to Elements/ClothData.json").toList

/-- The whole `extract_mesh.py` run on a document: try the vertices pattern
(parsing its tokens as floats), then the faceTriIds pattern (parsing as ints),
then build and write `data`.  A malformed token raises `ValueError`; if either
pattern did not match, the `data = {...}` line raises `NameError` because the
corresponding variable was never bound.  On success the result is the written
`MeshData` together with the progress messages printed, in order. -/
def runExtractor (content : List Char) : Except PyError (MeshData × List (List Char)) :=
  match vMatch content with
  | some vbody =>
    match parseAll pyFloat? (pyTokens vbody) with
    | none => Except.error PyError.valueError
    | some vs =>
      match iMatch content with
      | some ibody =>
        match parseAll pyInt? (pyTokens ibody) with
        | none => Except.error PyError.valueError
        | some inds =>
          Except.ok (⟨vs, inds⟩,
            [extractedVerticesMsg (vs.length / 3), extractedTrianglesMsg (inds.length / 3), savedMsg])
      | none => Except.error PyError.nameError
  | none =>
    match iMatch content with
    | some ibody =>
      match parseAll pyInt? (pyTokens ibody) with
      | none => Except.error PyError.valueError
      | some _ => Except.error PyError.nameError
    | none => Except.error PyError.nameError

/-- A document consisting of `pre`, then a well-formed marker block
`MARKER ws1 : ws2 [ body ]`, then `post`.  This is the general shape of a
document containing a `vertices: [...]` (or `faceTriIds: [...]`) region. -/
def mkBlockDoc (marker pre ws1 ws2 body post : List Char) : List Char :=
  pre ++ (marker ++ (ws1 ++ (':' :: (ws2 ++ ('[' :: (body ++ (']' :: post)))))))

/-- Round-half-even of a rational to the nearest integer: the rounding Python
applies when formatting the (modelled) value with `%.6f`. -/
def rhe (q : ℚ) : ℤ :=
  if q - ⌊q⌋ < 1 / 2 then ⌊q⌋
  else if 1 / 2 < q - ⌊q⌋ then ⌊q⌋ + 1
  else if ⌊q⌋ % 2 = 0 then ⌊q⌋ else ⌊q⌋ + 1

/-- The fractional digits of a `%.6f` rendering: the decimal digits of
`f` (which is below `10^6`) left-padded with zeros to width 6. -/
def sixFrac (f : Nat) : List Char :=
  List.replicate (6 - (natDigits f).length) '0' ++ natDigits f

/-- Python's `f"{x:.6f}"` on the modelled value: round to 6 decimal places
(half to even), then print sign, integer digits, a point, and exactly six
fractional digits.  (Python prints `-0.000000` for tiny negative values; the
sign of a negative zero is not modelled, which affects no claim here.) -/
def fmt6 (x : ℚ) : List Char :=
  (if rhe (x * 1000000) < 0 then ['-'] else []) ++
    (natDigits ((rhe (x * 1000000)).natAbs / 1000000) ++
      ('.' :: sixFrac ((rhe (x * 1000000)).natAbs % 1000000)))

/-- Fuel-indexed version of the Renderer's chunking loop
`for i in range(0, len(l), 12): chunk = l[i:i+12]` (any fuel at least the
list length gives the true chunk list). -/
def chunksAux : Nat → List α → List (List α)
  | 0, _ => []
  | _ + 1, [] => []
  | fuel + 1, c :: cs => (c :: cs).take 12 :: chunksAux fuel (cs.drop 11)

/-- The successive 12-element chunks of a list (the last one may be shorter). -/
def chunksOf12 (l : List α) : List (List α) := chunksAux l.length l

/-- Python's `", ".join`. -/
def joinComma : List (List Char) → List Char
  | [] => []
  | [x] => x
  | x :: y :: ys => x ++ (',' :: ' ' :: joinComma (y :: ys))

/-- One emitted line of the vertices block:
`f"        {line},\n"` with `line = ", ".join(f"{x:.6f}" for x in chunk)`
(without the final newline, which line assembly adds). -/
def renderVLine (c : List ℚ) : List Char :=
  List.replicate 8 ' ' ++ (joinComma (c.map fmt6) ++ [','])

/-- One emitted line of the indices block:
`f"        {line},\n"` with `line = ", ".join(str(x) for x in chunk)`. -/
def renderILine (c : List ℤ) : List Char :=
  List.replicate 8 ' ' ++ (joinComma (c.map intStr) ++ [','])

/-- All value lines of the vertices array literal, in order. -/
def vertexValueLines (l : List ℚ) : List (List Char) := (chunksOf12 l).map renderVLine

/-- All value lines of the indices array literal, in order. -/
def indexValueLines (l : List ℤ) : List (List Char) := (chunksOf12 l).map renderILine

/-- The lines of `Elements/ClothReferenceData.swift` exactly as
`generate_swift_data.py` writes them (each followed by a newline when the
file text is assembled by `unlines`). -/
def renderLines (d : MeshData) : List (List Char) :=
  ("import Foundation").toList ::
    [] ::
      ("struct ClothReferenceData \x7b").toList ::
        ("    static let vertices: [Float] = [").toList ::
          (vertexValueLines d.vertices ++
            (("    ]").toList ::
              [] ::
                ("    static let indices: [UInt32] = [").toList ::
                  (indexValueLines d.indices ++ [("    ]").toList, ("\x7d").toList])))

/-- Join lines into file text, a newline after every line (matching the
`\n`-terminated `f.write` calls of the script). -/
def unlines : List (List Char) → List Char
  | [] => []
  | l :: ls => l ++ ('\n' :: unlines ls)

/-- The full text of the rendered Swift source file. -/
def renderSwift (d : MeshData) : List Char := unlines (renderLines d)

/-- The files the Renderer touches: the intermediate artifact it reads
(modelled post-JSON-parse) and the Swift source file it overwrites. -/
structure FS where
  clothData : MeshData
  swiftFile : List Char
deriving DecidableEq

/-- One run of `generate_swift_data.py`: read `Elements/ClothData.json`,
fully overwrite `Elements/ClothReferenceData.swift` with the rendered text;
the intermediate file is opened read-only and never written. -/
def rendererRun (fs : FS) : FS :=
  { clothData := fs.clothData, swiftFile := renderSwift fs.clothData }

/-! ### Lemmas about the leftmost regex search -/

theorem dropLiteral_append (p l : List Char) : dropLiteral p (p ++ l) = some l := by
  induction p with
  | nil => rfl
  | cons c cs ih => simp [dropLiteral, ih]

theorem dropLiteral_eq_none (p l : List Char) (h : startsWithL p l = false) :
    dropLiteral p l = none := by
  unfold startsWithL at h
  cases hd : dropLiteral p l with
  | none => rfl
  | some r => rw [hd] at h; simp at h

theorem dropWS_append (ws : List Char) (h : ∀ c ∈ ws, isPySpace c = true) :
    ∀ l, dropWS (ws ++ l) = dropWS l := by
  induction ws with
  | nil => intro l; rfl
  | cons c cs ih =>
    intro l
    have hc : isPySpace c = true := h c (by simp)
    simp only [List.cons_append, dropWS, hc, if_true]
    exact ih (fun d hd => h d (by simp [hd])) l

theorem dropWS_cons_not (c : Char) (h : isPySpace c = false) :
    ∀ l, dropWS (c :: l) = c :: l := by
  intro l
  simp [dropWS, h]

theorem captureUntil_append (body post : List Char) (h : ']' ∉ body) :
    captureUntil (body ++ (']' :: post)) = some body := by
  induction body with
  | nil => simp [captureUntil]
  | cons c cs ih =>
    have hc : ¬(c = ']') := fun hh => h (by simp [hh])
    have hcs : ']' ∉ cs := fun hm => h (by simp [hm])
    simp [captureUntil, hc, ih hcs]

theorem matchHead_block (marker ws1 ws2 body post : List Char)
    (h1 : ∀ c ∈ ws1, isPySpace c = true) (h2 : ∀ c ∈ ws2, isPySpace c = true) :
    matchHead marker (marker ++ (ws1 ++ (':' :: (ws2 ++ ('[' :: (body ++ (']' :: post))))))) =
      some (body ++ (']' :: post)) := by
  simp only [matchHead, dropLiteral_append, dropWS_append ws1 h1, dropWS_append ws2 h2,
    dropWS_cons_not ':' (by decide), dropWS_cons_not '[' (by decide)]

theorem tryHere_block (marker ws1 ws2 body post : List Char)
    (h1 : ∀ c ∈ ws1, isPySpace c = true) (h2 : ∀ c ∈ ws2, isPySpace c = true)
    (hb : ']' ∉ body) :
    tryHere marker (marker ++ (ws1 ++ (':' :: (ws2 ++ ('[' :: (body ++ (']' :: post))))))) =
      some body := by
  unfold tryHere
  rw [matchHead_block marker ws1 ws2 body post h1 h2]
  simp [captureUntil_append body post hb]

theorem tryHere_none (marker l : List Char) (h : startsWithL marker l = false) :
    tryHere marker l = none := by
  unfold tryHere matchHead
  rw [dropLiteral_eq_none marker l h]
  rfl

theorem reSearch_cons (marker : List Char) (c : Char) (cs : List Char) :
    reSearch marker (c :: cs) =
      match tryHere marker (c :: cs) with
      | some r => some r
      | none => reSearch marker cs := rfl

theorem reSearch_of_tryHere (marker l r : List Char) (h : tryHere marker l = some r) :
    reSearch marker l = some r := by
  cases l with
  | nil => simpa [reSearch] using h
  | cons c cs => simp [reSearch, h]

theorem drop_append_le {α : Type} : ∀ (k : Nat) (l1 l2 : List α), k ≤ l1.length →
    (l1 ++ l2).drop k = l1.drop k ++ l2
  | 0, _, _, _ => rfl
  | k + 1, [], _, h => by simp at h
  | k + 1, _ :: l1, l2, h => by
    simp only [List.cons_append, List.drop_succ_cons]
    exact drop_append_le k l1 l2 (by simpa using h)

theorem reSearch_skip (marker : List Char) : ∀ (pre rest : List Char),
    (∀ k, k < pre.length → startsWithL marker (pre.drop k ++ rest) = false) →
    reSearch marker (pre ++ rest) = reSearch marker rest
  | [], _, _ => rfl
  | c :: pre, rest, h => by
    have h0 : startsWithL marker (c :: (pre ++ rest)) = false := by
      have hh := h 0 (by simp)
      simpa using hh
    have hth : tryHere marker (c :: (pre ++ rest)) = none := tryHere_none _ _ h0
    have hstep : (c :: pre) ++ rest = c :: (pre ++ rest) := rfl
    rw [hstep, reSearch_cons, hth]
    exact reSearch_skip marker pre rest fun k hk => by
      have hh := h (k + 1) (by simpa using Nat.succ_lt_succ hk)
      simpa using hh

/-- The leftmost match of the pattern on a well-formed block document is the
block's body, whatever follows the block: the prefix has no match (hypothesis
`hn`), the block itself matches, and the capture is non-greedy up to the first
closing bracket. -/
theorem reSearch_block (marker pre ws1 ws2 body post : List Char)
    (h1 : ∀ c ∈ ws1, isPySpace c = true) (h2 : ∀ c ∈ ws2, isPySpace c = true)
    (hb : ']' ∉ body)
    (hn : ∀ k, k < pre.length →
      startsWithL marker ((mkBlockDoc marker pre ws1 ws2 body post).drop k) = false) :
    reSearch marker (mkBlockDoc marker pre ws1 ws2 body post) = some body := by
  unfold mkBlockDoc at hn ⊢
  rw [reSearch_skip marker pre _ (fun k hk => by
    have hh := hn k hk
    rwa [drop_append_le k pre _ (le_of_lt hk)] at hh)]
  exact reSearch_of_tryHere _ _ _ (tryHere_block marker ws1 ws2 body post h1 h2 hb)

/-! ### Lemmas about token-list parsing -/

theorem parseAll_length {α : Type} (f : List Char → Option α) :
    ∀ (ts : List (List Char)) (vs : List α), parseAll f ts = some vs → vs.length = ts.length
  | [], vs, h => by
    simp only [parseAll, Option.some.injEq] at h
    simp [← h]
  | t :: ts, vs, h => by
    simp only [parseAll] at h
    cases hf : f t with
    | none => rw [hf] at h; simp at h
    | some v =>
      cases hp : parseAll f ts with
      | none => rw [hf, hp] at h; simp at h
      | some ws =>
        rw [hf, hp] at h
        simp only [Option.some.injEq] at h
        subst h
        simp [parseAll_length f ts ws hp]

theorem parseAll_get {α : Type} (f : List Char → Option α) :
    ∀ (ts : List (List Char)) (vs : List α), parseAll f ts = some vs →
      ∀ i : Nat, vs[i]? = (ts[i]?).bind f
  | [], vs, h, i => by
    simp only [parseAll, Option.some.injEq] at h
    subst h
    rfl
  | t :: ts, vs, h, i => by
    simp only [parseAll] at h
    cases hf : f t with
    | none => rw [hf] at h; simp at h
    | some v =>
      cases hp : parseAll f ts with
      | none => rw [hf, hp] at h; simp at h
      | some ws =>
        rw [hf, hp] at h
        simp only [Option.some.injEq] at h
        subst h
        cases i with
        | zero => simp [hf]
        | succ j => simpa using parseAll_get f ts ws hp j

/-! ### Claims about the Extractor's pattern matching -/

section
attribute [local semireducible] Rat.add Rat.mul Rat.inv Rat.sub

/-- C1: for every document containing a `vertices: [...]` block with N numeric
values, the Extractor produces a vertices sequence of length exactly N
preserving the order of the values in the document, and likewise for every
document containing a `faceTriIds: [...]` block with M values it produces an
indices sequence of length exactly M, preserving order.  The matched substring
is the non-greedy region between the marker's opening bracket and the next
closing bracket (`']' ∉ body`), with commas normalized to whitespace before
splitting (`pyTokens`); the N values of the block are its tokens, and the i-th
produced value is the parse of the i-th token. -/
theorem c1_extractor_preserves_block_values
    (pre1 ws1 ws2 body1 post1 pre2 ws3 ws4 body2 post2 : List Char)
    (vs : List ℚ) (inds : List ℤ)
    (hw1 : ∀ c ∈ ws1, isPySpace c = true) (hw2 : ∀ c ∈ ws2, isPySpace c = true)
    (hb1 : ']' ∉ body1)
    (hn1 : ∀ k, k < pre1.length →
      startsWithL vMarker ((mkBlockDoc vMarker pre1 ws1 ws2 body1 post1).drop k) = false)
    (hp1 : parseAll pyFloat? (pyTokens body1) = some vs)
    (hw3 : ∀ c ∈ ws3, isPySpace c = true) (hw4 : ∀ c ∈ ws4, isPySpace c = true)
    (hb2 : ']' ∉ body2)
    (hn2 : ∀ k, k < pre2.length →
      startsWithL iMarker ((mkBlockDoc iMarker pre2 ws3 ws4 body2 post2).drop k) = false)
    (hp2 : parseAll pyInt? (pyTokens body2) = some inds) :
    verticesOf (mkBlockDoc vMarker pre1 ws1 ws2 body1 post1) = some vs ∧
    vs.length = (pyTokens body1).length ∧
    (∀ i : Nat, vs[i]? = ((pyTokens body1)[i]?).bind pyFloat?) ∧
    indicesOf (mkBlockDoc iMarker pre2 ws3 ws4 body2 post2) = some inds ∧
    inds.length = (pyTokens body2).length ∧
    (∀ i : Nat, inds[i]? = ((pyTokens body2)[i]?).bind pyInt?) := by
  have hv : vMatch (mkBlockDoc vMarker pre1 ws1 ws2 body1 post1) = some body1 :=
    reSearch_block vMarker pre1 ws1 ws2 body1 post1 hw1 hw2 hb1 hn1
  have hi : iMatch (mkBlockDoc iMarker pre2 ws3 ws4 body2 post2) = some body2 :=
    reSearch_block iMarker pre2 ws3 ws4 body2 post2 hw3 hw4 hb2 hn2
  refine ⟨?_, parseAll_length _ _ _ hp1, parseAll_get _ _ _ hp1,
    ?_, parseAll_length _ _ _ hp2, parseAll_get _ _ _ hp2⟩
  · unfold verticesOf
    rw [hv]
    simpa using hp1
  · unfold indicesOf
    rw [hi]
    simpa using hp2

/-- Witness for C1 at concrete documents with 3-token blocks. -/
theorem c1_extractor_preserves_block_values_witness :
    verticesOf (mkBlockDoc vMarker (("q ").toList) [] [' '] (("1.0, 2.5 3").toList) ((" x").toList)) =
      some [1, 5 / 2, 3] ∧
    indicesOf (mkBlockDoc iMarker (("p] ").toList) [' '] [] (("0,1, 2").toList) []) =
      some [0, 1, 2] := by
  have h := c1_extractor_preserves_block_values
    (("q ").toList) [] [' '] (("1.0, 2.5 3").toList) ((" x").toList)
    (("p] ").toList) [' '] [] (("0,1, 2").toList) []
    [1, 5 / 2, 3] [0, 1, 2]
    (by decide) (by decide) (by decide) (by decide) (by decide)
    (by decide) (by decide) (by decide) (by decide) (by decide)
  exact ⟨h.1, h.2.2.2.1⟩

/-- C2: if the `vertices` pattern is absent from the source document while the
`faceTriIds` pattern is present (and its tokens parse, so the run reaches the
write step), the Extractor's attempt to write the intermediate output fails
with the undefined-reference fault (`NameError`): it silently skipped the
missing sequence, then `data = {"vertices": vertices, ...}` referenced the
unbound variable.  No pattern-not-found diagnostic exists: `PyError` has no
such constructor. -/
theorem c2_missing_vertices_pattern_name_error
    (content body : List Char) (inds : List ℤ)
    (hv : vMatch content = none)
    (hi : iMatch content = some body)
    (hp : parseAll pyInt? (pyTokens body) = some inds) :
    runExtractor content = Except.error PyError.nameError := by
  unfold runExtractor
  rw [hv, hi]
  simp [hp]

/-- Witness for C2: a document with only a `faceTriIds` block. -/
theorem c2_missing_vertices_pattern_name_error_witness :
    runExtractor (("faceTriIds: [0, 1, 2]").toList) = Except.error PyError.nameError :=
  c2_missing_vertices_pattern_name_error (("faceTriIds: [0, 1, 2]").toList)
    (("0, 1, 2").toList) [0, 1, 2] (by decide) (by decide) (by decide)

/-- C10: if the source document contains more than one `vertices: [...]` block
(or more than one `faceTriIds: [...]` block), the Extractor uses only the first
occurrence of each pattern in document order: the search result is the first
block's body, whatever the later block contains. -/
theorem c10_first_occurrence_used
    (pre ws1 ws2 body mid ws5 ws6 body' post : List Char)
    (qre ws3 ws4 ibody mid2 ws7 ws8 ibody' post2 : List Char)
    (hw1 : ∀ c ∈ ws1, isPySpace c = true) (hw2 : ∀ c ∈ ws2, isPySpace c = true)
    (hb : ']' ∉ body)
    (hn : ∀ k, k < pre.length →
      startsWithL vMarker ((mkBlockDoc vMarker pre ws1 ws2 body
        (mid ++ mkBlockDoc vMarker [] ws5 ws6 body' post)).drop k) = false)
    (hw3 : ∀ c ∈ ws3, isPySpace c = true) (hw4 : ∀ c ∈ ws4, isPySpace c = true)
    (hb2 : ']' ∉ ibody)
    (hn2 : ∀ k, k < qre.length →
      startsWithL iMarker ((mkBlockDoc iMarker qre ws3 ws4 ibody
        (mid2 ++ mkBlockDoc iMarker [] ws7 ws8 ibody' post2)).drop k) = false) :
    vMatch (mkBlockDoc vMarker pre ws1 ws2 body
      (mid ++ mkBlockDoc vMarker [] ws5 ws6 body' post)) = some body ∧
    iMatch (mkBlockDoc iMarker qre ws3 ws4 ibody
      (mid2 ++ mkBlockDoc iMarker [] ws7 ws8 ibody' post2)) = some ibody :=
  ⟨reSearch_block vMarker pre ws1 ws2 body _ hw1 hw2 hb hn,
   reSearch_block iMarker qre ws3 ws4 ibody _ hw3 hw4 hb2 hn2⟩

/-- Witness for C10: documents with two `vertices` blocks and two `faceTriIds`
blocks; the match is the first block's body in each. -/
theorem c10_first_occurrence_used_witness :
    vMatch (mkBlockDoc vMarker (("a ").toList) [] [] (("1.5").toList)
      ((" z ").toList ++ mkBlockDoc vMarker [] [] [] (("9.9, 8").toList) [])) =
      some (("1.5").toList) ∧
    iMatch (mkBlockDoc iMarker [] [' '] [' '] (("0, 1").toList)
      (("..").toList ++ mkBlockDoc iMarker [] [] [] (("7").toList) ((" tail").toList))) =
      some (("0, 1").toList) :=
  c10_first_occurrence_used
    (("a ").toList) [] [] (("1.5").toList) ((" z ").toList) [] [] (("9.9, 8").toList) []
    [] [' '] [' '] (("0, 1").toList) (("..").toList) [] [] (("7").toList) ((" tail").toList)
    (by decide) (by decide) (by decide) (by decide)
    (by decide) (by decide) (by decide) (by decide)

end

/-! ### Lemmas about the Renderer's 12-element chunking -/

theorem chunksAux_congr {α : Type} : ∀ (n m : Nat) (l : List α), l.length ≤ n → l.length ≤ m →
    chunksAux n l = chunksAux m l
  | 0, m, l, h1, _ => by
    have hl : l = [] := List.eq_nil_of_length_eq_zero (Nat.le_zero.mp h1)
    subst hl
    cases m <;> rfl
  | _ + 1, m, [], _, _ => by cases m <;> rfl
  | _ + 1, 0, c :: cs, _, h2 => by simp at h2
  | n + 1, m + 1, c :: cs, h1, h2 => by
    simp only [chunksAux]
    congr 1
    have hd1 : (cs.drop 11).length ≤ n := by
      rw [List.length_drop]
      simp only [List.length_cons] at h1
      omega
    have hd2 : (cs.drop 11).length ≤ m := by
      rw [List.length_drop]
      simp only [List.length_cons] at h2
      omega
    exact chunksAux_congr n m (cs.drop 11) hd1 hd2

theorem chunksOf12_nil {α : Type} : chunksOf12 ([] : List α) = [] := rfl

theorem chunksOf12_cons {α : Type} (c : α) (cs : List α) :
    chunksOf12 (c :: cs) = (c :: cs).take 12 :: chunksOf12 (cs.drop 11) := by
  unfold chunksOf12
  simp only [List.length_cons, chunksAux]
  congr 1
  exact chunksAux_congr cs.length (cs.drop 11).length (cs.drop 11)
    (by rw [List.length_drop]; omega) le_rfl

theorem chunksOf12_eq_nil {α : Type} (l : List α) : chunksOf12 l = [] ↔ l = [] := by
  cases l with
  | nil => simp [chunksOf12_nil]
  | cons c cs => simp [chunksOf12_cons]

theorem chunksOf12_length_aux {α : Type} : ∀ (n : Nat) (l : List α), l.length ≤ n →
    (chunksOf12 l).length = (l.length + 11) / 12
  | 0, l, h => by
    have hl : l = [] := List.eq_nil_of_length_eq_zero (Nat.le_zero.mp h)
    subst hl
    rw [chunksOf12_nil]
    simp
  | _ + 1, [], _ => by
    rw [chunksOf12_nil]
    simp
  | n + 1, c :: cs, h => by
    rw [chunksOf12_cons]
    have h' : (cs.drop 11).length ≤ n := by
      rw [List.length_drop]
      simp only [List.length_cons] at h
      omega
    have hrec := chunksOf12_length_aux n (cs.drop 11) h'
    rw [List.length_drop] at hrec
    simp only [List.length_cons, hrec]
    omega

/-- The Renderer's loop `range(0, L, 12)` emits one chunk per step:
`⌈L/12⌉` of them. -/
theorem chunksOf12_length {α : Type} (l : List α) :
    (chunksOf12 l).length = (l.length + 11) / 12 :=
  chunksOf12_length_aux l.length l le_rfl

theorem chunksOf12_dropLast_aux {α : Type} : ∀ (n : Nat) (l : List α), l.length ≤ n →
    ∀ c ∈ (chunksOf12 l).dropLast, c.length = 12
  | 0, l, h, c, hc => by
    have hl : l = [] := List.eq_nil_of_length_eq_zero (Nat.le_zero.mp h)
    subst hl
    simp [chunksOf12_nil] at hc
  | _ + 1, [], _, c, hc => by simp [chunksOf12_nil] at hc
  | n + 1, a :: as, h, c, hc => by
    rw [chunksOf12_cons] at hc
    cases hrest : chunksOf12 (as.drop 11) with
    | nil => rw [hrest] at hc; simp at hc
    | cons r rs =>
      rw [hrest] at hc
      have hne2 : as.drop 11 ≠ [] := by
        intro hh
        rw [hh] at hrest
        simp [chunksOf12_nil] at hrest
      have hlen : 12 ≤ as.length + 1 := by
        have hp := List.length_pos.mpr hne2
        rw [List.length_drop] at hp
        omega
      rw [List.dropLast_cons₂] at hc
      rcases List.mem_cons.mp hc with hcase | hcase
      · subst hcase
        rw [List.length_take]
        simp only [List.length_cons]
        omega
      · have h' : (as.drop 11).length ≤ n := by
          rw [List.length_drop]
          simp only [List.length_cons] at h
          omega
        exact chunksOf12_dropLast_aux n (as.drop 11) h' c (by rw [hrest]; exact hcase)

theorem chunksOf12_getLast_aux {α : Type} : ∀ (n : Nat) (l : List α), l.length ≤ n →
    l.length % 12 ≠ 0 →
    ∃ c, (chunksOf12 l).getLast? = some c ∧ c.length = l.length % 12
  | 0, l, h, hmod => by
    have hl : l = [] := List.eq_nil_of_length_eq_zero (Nat.le_zero.mp h)
    subst hl
    simp at hmod
  | _ + 1, [], _, hmod => by simp at hmod
  | n + 1, a :: as, h, hmod => by
    rw [chunksOf12_cons]
    cases hrest : chunksOf12 (as.drop 11) with
    | nil =>
      have hlen : as.length ≤ 11 := by
        have he := (chunksOf12_eq_nil (as.drop 11)).mp hrest
        have hld := congrArg List.length he
        rw [List.length_drop] at hld
        simp only [List.length_nil] at hld
        omega
      refine ⟨(a :: as).take 12, by simp, ?_⟩
      rw [List.length_take]
      simp only [List.length_cons] at hmod ⊢
      omega
    | cons r rs =>
      have hne2 : as.drop 11 ≠ [] := by
        intro hh
        rw [hh] at hrest
        simp [chunksOf12_nil] at hrest
      have hlen : 12 ≤ as.length + 1 := by
        have hp := List.length_pos.mpr hne2
        rw [List.length_drop] at hp
        omega
      have h' : (as.drop 11).length ≤ n := by
        rw [List.length_drop]
        simp only [List.length_cons] at h
        omega
      have hmod' : (as.drop 11).length % 12 ≠ 0 := by
        rw [List.length_drop]
        simp only [List.length_cons] at hmod
        omega
      obtain ⟨c, hc1, hc2⟩ := chunksOf12_getLast_aux n (as.drop 11) h' hmod'
      rw [hrest] at hc1
      refine ⟨c, ?_, ?_⟩
      · rw [List.getLast?_cons_cons]
        exact hc1
      · rw [hc2, List.length_drop]
        simp only [List.length_cons]
        omega

theorem chunksOf12_mem_ne_nil {α : Type} : ∀ (n : Nat) (l : List α), l.length ≤ n →
    ∀ c ∈ chunksOf12 l, c ≠ []
  | 0, l, h, c, hc => by
    have hl : l = [] := List.eq_nil_of_length_eq_zero (Nat.le_zero.mp h)
    subst hl
    simp [chunksOf12_nil] at hc
  | _ + 1, [], _, c, hc => by simp [chunksOf12_nil] at hc
  | n + 1, a :: as, h, c, hc => by
    rw [chunksOf12_cons] at hc
    rcases List.mem_cons.mp hc with hcase | hcase
    · subst hcase
      simp [List.take_succ_cons]
    · have h' : (as.drop 11).length ≤ n := by
        rw [List.length_drop]
        simp only [List.length_cons] at h
        omega
      exact chunksOf12_mem_ne_nil n (as.drop 11) h' c hcase

/-- C3: for any sequence of length L, the Renderer emits exactly ⌈L/12⌉ value
lines for that array (one per chunk, `(L + 11) / 12` in integer arithmetic),
every chunk except possibly the last has exactly 12 values (a line's
comma-separated values are exactly its chunk's values), and when L is not a
multiple of 12 the final chunk has the remainder `L % 12`, between 1 and 11
values. -/
theorem c3_renderer_chunking (verts : List ℚ) (inds : List ℤ) :
    (vertexValueLines verts).length = (verts.length + 11) / 12 ∧
    (indexValueLines inds).length = (inds.length + 11) / 12 ∧
    vertexValueLines verts = (chunksOf12 verts).map renderVLine ∧
    indexValueLines inds = (chunksOf12 inds).map renderILine ∧
    (∀ c ∈ (chunksOf12 verts).dropLast, c.length = 12) ∧
    (∀ c ∈ (chunksOf12 inds).dropLast, c.length = 12) ∧
    (verts.length % 12 ≠ 0 →
      ∃ c, (chunksOf12 verts).getLast? = some c ∧ c.length = verts.length % 12 ∧
        1 ≤ c.length ∧ c.length ≤ 11) ∧
    (inds.length % 12 ≠ 0 →
      ∃ c, (chunksOf12 inds).getLast? = some c ∧ c.length = inds.length % 12 ∧
        1 ≤ c.length ∧ c.length ≤ 11) := by
  refine ⟨?_, ?_, rfl, rfl, chunksOf12_dropLast_aux verts.length verts le_rfl,
    chunksOf12_dropLast_aux inds.length inds le_rfl, ?_, ?_⟩
  · rw [vertexValueLines, List.length_map, chunksOf12_length]
  · rw [indexValueLines, List.length_map, chunksOf12_length]
  · intro hm
    obtain ⟨c, h1, h2⟩ := chunksOf12_getLast_aux verts.length verts le_rfl hm
    exact ⟨c, h1, h2, by omega, by omega⟩
  · intro hm
    obtain ⟨c, h1, h2⟩ := chunksOf12_getLast_aux inds.length inds le_rfl hm
    exact ⟨c, h1, h2, by omega, by omega⟩

/-- Witness for C3 on a 13-element vertex list: two lines, last chunk of 1. -/
theorem c3_renderer_chunking_witness :
    (vertexValueLines (List.replicate 13 (0 : ℚ))).length = 2 ∧
    (∃ c, (chunksOf12 (List.replicate 13 (0 : ℚ))).getLast? = some c ∧
      c.length = 1 ∧ 1 ≤ c.length ∧ c.length ≤ 11) := by
  have h := c3_renderer_chunking (List.replicate 13 (0 : ℚ)) ([] : List ℤ)
  constructor
  · have h1 := h.1
    simpa using h1
  · have h7 := h.2.2.2.2.2.2.1 (by simp)
    simpa using h7

/-! ### Lemmas about decimal digit strings -/

theorem digit?_digitChar (d : Nat) (h : d < 10) : digit? (digitChar d) = some d := by
  interval_cases d <;> decide

theorem digit?_isSome_bounds (c : Char) (h : (digit? c).isSome = true) : '0' ≤ c ∧ c ≤ '9' := by
  unfold digit? at h
  split at h
  · rename_i hc
    exact hc
  · simp at h

theorem digit?_isSome_not_space (c : Char) (h : (digit? c).isSome = true) :
    isPySpace c = false := by
  obtain ⟨h0, _⟩ := digit?_isSome_bounds c h
  have n1 : c ≠ ' ' := fun he => absurd (he ▸ h0) (by decide)
  have n2 : c ≠ '\t' := fun he => absurd (he ▸ h0) (by decide)
  have n3 : c ≠ '\n' := fun he => absurd (he ▸ h0) (by decide)
  have n4 : c ≠ '\r' := fun he => absurd (he ▸ h0) (by decide)
  have n5 : c ≠ '\x0b' := fun he => absurd (he ▸ h0) (by decide)
  have n6 : c ≠ '\x0c' := fun he => absurd (he ▸ h0) (by decide)
  simp [isPySpace, n1, n2, n3, n4, n5, n6]

theorem digit?_isSome_ne (c x : Char) (h : (digit? c).isSome = true)
    (hx : ¬('0' ≤ x ∧ x ≤ '9')) : c ≠ x :=
  fun he => hx (he ▸ digit?_isSome_bounds c h)

theorem natDigitsAux_congr : ∀ (f1 f2 n : Nat), n < f1 → n < f2 →
    natDigitsAux f1 n = natDigitsAux f2 n
  | 0, _, n, h1, _ => absurd h1 (Nat.not_lt_zero n)
  | _ + 1, 0, n, _, h2 => absurd h2 (Nat.not_lt_zero n)
  | f1 + 1, f2 + 1, n, h1, h2 => by
    by_cases h : n < 10
    · simp [natDigitsAux, h]
    · simp only [natDigitsAux, if_neg h]
      congr 1
      exact natDigitsAux_congr f1 f2 (n / 10) (by omega) (by omega)

theorem natDigits_lt (n : Nat) (h : n < 10) : natDigits n = [digitChar n] := by
  simp [natDigits, natDigitsAux, h]

theorem natDigits_ge (n : Nat) (h : 10 ≤ n) :
    natDigits n = natDigits (n / 10) ++ [digitChar (n % 10)] := by
  unfold natDigits
  simp only [natDigitsAux, if_neg (by omega : ¬n < 10)]
  congr 1
  exact natDigitsAux_congr n (n / 10 + 1) (n / 10) (by omega) (by omega)

theorem natDigits_ne_nil (n : Nat) : natDigits n ≠ [] := by
  by_cases h : n < 10
  · rw [natDigits_lt n h]
    simp
  · rw [natDigits_ge n (by omega)]
    simp

theorem natDigits_all_digits (n : Nat) : ∀ c ∈ natDigits n, (digit? c).isSome = true := by
  induction n using Nat.strong_induction_on with
  | _ n ih =>
    intro c hc
    by_cases h : n < 10
    · rw [natDigits_lt n h] at hc
      simp only [List.mem_singleton] at hc
      subst hc
      rw [digit?_digitChar n h]
      rfl
    · rw [natDigits_ge n (by omega)] at hc
      rcases List.mem_append.mp hc with hcc | hcc
      · exact ih (n / 10) (by omega) c hcc
      · simp only [List.mem_singleton] at hcc
        subst hcc
        rw [digit?_digitChar (n % 10) (by omega)]
        rfl

theorem valOf_append (A B : List Char) :
    valOf (A ++ B) = valOf A * 10 ^ B.length + valOf B := by
  induction A with
  | nil => simp [valOf]
  | cons c cs ih =>
    have e1 : valOf ((c :: cs) ++ B) =
        (digit? c).getD 0 * 10 ^ (cs ++ B).length + valOf (cs ++ B) := rfl
    have e2 : valOf (c :: cs) = (digit? c).getD 0 * 10 ^ cs.length + valOf cs := rfl
    rw [e1, e2, ih, List.length_append, pow_add]
    ring

theorem valOf_natDigits (n : Nat) : valOf (natDigits n) = n := by
  induction n using Nat.strong_induction_on with
  | _ n ih =>
    by_cases h : n < 10
    · rw [natDigits_lt n h]
      simp [valOf, digit?_digitChar n h]
    · rw [natDigits_ge n (by omega), valOf_append, ih (n / 10) (by omega)]
      simp [valOf, digit?_digitChar (n % 10) (by omega)]
      omega

theorem natDigits_length_le : ∀ (k : Nat), 0 < k → ∀ n, n < 10 ^ k →
    (natDigits n).length ≤ k
  | 0, h, _, _ => absurd h (by omega)
  | 1, _, n, hn => by
    rw [natDigits_lt n (by simpa using hn)]
    simp
  | k + 2, _, n, hn => by
    by_cases h : n < 10
    · rw [natDigits_lt n h]
      simp
    · rw [natDigits_ge n (by omega), List.length_append]
      have hdiv : n / 10 < 10 ^ (k + 1) := by
        have h10 : n < 10 ^ (k + 1) * 10 := by
          rw [← pow_succ]
          exact hn
        exact (Nat.div_lt_iff_lt_mul (by omega)).mpr h10
      have hrec := natDigits_length_le (k + 1) (by omega) (n / 10) hdiv
      simp only [List.length_singleton]
      omega

theorem valOf_replicate_zero : ∀ k : Nat, valOf (List.replicate k '0') = 0
  | 0 => rfl
  | k + 1 => by
    have e : valOf (List.replicate (k + 1) '0') =
        (digit? '0').getD 0 * 10 ^ (List.replicate k '0').length + valOf (List.replicate k '0') :=
      rfl
    rw [e, valOf_replicate_zero k, show digit? '0' = some 0 from rfl]
    simp

theorem sixFrac_length (f : Nat) (h : f < 1000000) : (sixFrac f).length = 6 := by
  unfold sixFrac
  rw [List.length_append, List.length_replicate]
  have h6 : f < 10 ^ 6 := by
    simpa using h
  have := natDigits_length_le 6 (by omega) f h6
  omega

theorem sixFrac_all_digits (f : Nat) : ∀ c ∈ sixFrac f, (digit? c).isSome = true := by
  intro c hc
  unfold sixFrac at hc
  rcases List.mem_append.mp hc with hcc | hcc
  · rw [List.eq_of_mem_replicate hcc]
    decide
  · exact natDigits_all_digits f c hcc

theorem valOf_sixFrac (f : Nat) : valOf (sixFrac f) = f := by
  unfold sixFrac
  rw [valOf_append, valOf_natDigits, valOf_replicate_zero]
  simp

theorem takeDigits_append : ∀ (A B : List Char), (∀ c ∈ A, (digit? c).isSome = true) →
    (∀ c, B.head? = some c → digit? c = none) →
    takeDigits (A ++ B) = (valOf A, A.length, B)
  | [], B, _, hB => by
    cases B with
    | nil => rfl
    | cons c cs =>
      have hc := hB c rfl
      simp [takeDigits, hc, valOf]
  | a :: A, B, hA, hB => by
    have ha := hA a (by simp)
    obtain ⟨d, hd⟩ := Option.isSome_iff_exists.mp ha
    have ihAB := takeDigits_append A B (fun c hc => hA c (by simp [hc])) hB
    have e : takeDigits ((a :: A) ++ B) =
        match digit? a with
        | none => (0, 0, a :: (A ++ B))
        | some d =>
          (d * 10 ^ (takeDigits (A ++ B)).2.1 + (takeDigits (A ++ B)).1,
            (takeDigits (A ++ B)).2.1 + 1, (takeDigits (A ++ B)).2.2) := rfl
    rw [e, hd, ihAB]
    have e2 : valOf (a :: A) = (digit? a).getD 0 * 10 ^ A.length + valOf A := rfl
    rw [e2, hd]
    simp

theorem takeDigits_all (A : List Char) (hA : ∀ c ∈ A, (digit? c).isSome = true) :
    takeDigits A = (valOf A, A.length, []) := by
  have h := takeDigits_append A [] hA (fun c hc => by simp at hc)
  simpa using h

theorem stripNeg_dash (l : List Char) : stripNeg ('-' :: l) = (true, l) := by
  simp [stripNeg]

theorem stripNeg_no_sign (c : Char) (l : List Char) (h1 : c ≠ '-') (h2 : c ≠ '+') :
    stripNeg (c :: l) = (false, c :: l) := by
  simp [stripNeg, h1, h2]

/-- C6: for every integer value in the intermediate indices sequence, rendering
it as its plain decimal string (`str(x)`) and re-parsing the resulting literal
(`int(...)`) recovers the original value exactly: the integer render/parse
round-trip is the identity. -/
theorem c6_int_round_trip (n : ℤ) : pyInt? (intStr n) = some n := by
  have hall := natDigits_all_digits n.natAbs
  have htd := takeDigits_all (natDigits n.natAbs) hall
  obtain ⟨c0, cs0, hcons⟩ := List.exists_cons_of_ne_nil (natDigits_ne_nil n.natAbs)
  have hc0 : (digit? c0).isSome = true := hall c0 (by rw [hcons]; simp)
  by_cases h : n < 0
  · have hstr : intStr n = '-' :: natDigits n.natAbs := by
      unfold intStr
      rw [if_pos h]
      rfl
    rw [hstr]
    unfold pyInt?
    simp only [stripNeg_dash, htd]
    simp [valOf_natDigits, natDigits_ne_nil n.natAbs, List.length_eq_zero,
      -Int.natCast_natAbs]
    omega
  · have hstr : intStr n = natDigits n.natAbs := by
      unfold intStr
      rw [if_neg h]
      rfl
    rw [hstr, hcons]
    unfold pyInt?
    simp only [stripNeg_no_sign c0 cs0
        (digit?_isSome_ne c0 '-' hc0 (by decide))
        (digit?_isSome_ne c0 '+' hc0 (by decide))]
    rw [← hcons]
    simp only [htd]
    simp [valOf_natDigits, natDigits_ne_nil n.natAbs, List.length_eq_zero,
      -Int.natCast_natAbs]
    omega

/-! ### Lemmas about the `%.6f` rendering -/

theorem fmt6_decimal_shape (x : ℚ) :
    ∃ a b, fmt6 x = a ++ ('.' :: b) ∧ '.' ∉ a ∧ b.length = 6 ∧
      (∀ c ∈ b, (digit? c).isSome = true) := by
  refine ⟨(if rhe (x * 1000000) < 0 then ['-'] else []) ++
      natDigits ((rhe (x * 1000000)).natAbs / 1000000),
    sixFrac ((rhe (x * 1000000)).natAbs % 1000000), ?_, ?_, ?_, ?_⟩
  · unfold fmt6
    rw [List.append_assoc]
  · intro hmem
    rcases List.mem_append.mp hmem with hc | hc
    · by_cases hneg : rhe (x * 1000000) < 0
      · rw [if_pos hneg] at hc
        exact absurd (List.mem_singleton.mp hc) (by decide)
      · rw [if_neg hneg] at hc
        simp at hc
    · have hd := natDigits_all_digits ((rhe (x * 1000000)).natAbs / 1000000) '.' hc
      exact absurd (digit?_isSome_bounds '.' hd) (by decide)
  · exact sixFrac_length _ (Nat.mod_lt _ (by norm_num))
  · exact sixFrac_all_digits _

theorem fmt6_head (x : ℚ) : ∃ c0 rest, fmt6 x = c0 :: rest ∧ isPySpace c0 = false := by
  unfold fmt6
  by_cases hneg : rhe (x * 1000000) < 0
  · rw [if_pos hneg]
    exact ⟨'-', _, rfl, by decide⟩
  · rw [if_neg hneg]
    obtain ⟨c0, cs0, hcons⟩ :=
      List.exists_cons_of_ne_nil (natDigits_ne_nil ((rhe (x * 1000000)).natAbs / 1000000))
    rw [List.nil_append, hcons, List.cons_append]
    refine ⟨c0, _, rfl, ?_⟩
    exact digit?_isSome_not_space c0 (natDigits_all_digits _ c0 (by rw [hcons]; simp))

theorem joinComma_cons (a : List Char) (r : List (List Char)) :
    ∃ t, joinComma (a :: r) = a ++ t := by
  cases r with
  | nil => exact ⟨[], by simp [joinComma]⟩
  | cons y ys => exact ⟨',' :: ' ' :: joinComma (y :: ys), rfl⟩

theorem getLast?_append_singleton {α : Type} (l : List α) (a : α) :
    (l ++ [a]).getLast? = some a :=
  List.getLast?_concat l

/-- C4: every value line of the Renderer's vertices block is indented by
exactly 8 spaces (8 spaces then a non-space character), ends with a trailing
comma, and formats each floating-point value with exactly 6 digits after the
decimal point (a unique point followed by 6 digit characters); the block is
opened by the line `static let vertices: [Float] = [` and closed by `]`, with
both blocks wrapped in the `ClothReferenceData` structure declaration preceded
by the one `import Foundation` header line. -/
theorem c4_vertices_block_format (d : MeshData) :
    renderLines d =
      ("import Foundation").toList ::
        [] ::
          ("struct ClothReferenceData \x7b").toList ::
            ("    static let vertices: [Float] = [").toList ::
              (vertexValueLines d.vertices ++
                (("    ]").toList ::
                  [] ::
                    ("    static let indices: [UInt32] = [").toList ::
                      (indexValueLines d.indices ++
                        [("    ]").toList, ("\x7d").toList]))) ∧
    (∀ line ∈ vertexValueLines d.vertices,
      ∃ c, c ∈ chunksOf12 d.vertices ∧
        line = List.replicate 8 ' ' ++ (joinComma (c.map fmt6) ++ [',']) ∧
        line.getLast? = some ',' ∧
        (∀ c0, (joinComma (c.map fmt6)).head? = some c0 → isPySpace c0 = false) ∧
        (∀ x ∈ c, ∃ a b, fmt6 x = a ++ ('.' :: b) ∧ '.' ∉ a ∧ b.length = 6 ∧
          ∀ ch ∈ b, (digit? ch).isSome = true)) := by
  refine ⟨rfl, ?_⟩
  intro line hline
  obtain ⟨c, hc, hlineeq⟩ := List.mem_map.mp hline
  refine ⟨c, hc, hlineeq.symm, ?_, ?_, fun x _ => fmt6_decimal_shape x⟩
  · rw [← hlineeq]
    unfold renderVLine
    rw [← List.append_assoc]
    exact getLast?_append_singleton _ ','
  · intro c0 hc0
    obtain ⟨x, xs, hxc⟩ :=
      List.exists_cons_of_ne_nil (chunksOf12_mem_ne_nil d.vertices.length d.vertices le_rfl c hc)
    obtain ⟨t, ht⟩ := joinComma_cons (fmt6 x) (xs.map fmt6)
    obtain ⟨h0, rest, hf, hns⟩ := fmt6_head x
    rw [hxc] at hc0
    simp only [List.map_cons] at hc0
    rw [ht, hf] at hc0
    simp only [List.cons_append, List.head?_cons, Option.some.injEq] at hc0
    rw [← hc0]
    exact hns

/-- Witness for C4: the single value line of a one-vertex mesh. -/
theorem c4_vertices_block_format_witness :
    ∃ c, c ∈ chunksOf12 ([1] : List ℚ) ∧
      renderVLine [1] = List.replicate 8 ' ' ++ (joinComma (c.map fmt6) ++ [',']) ∧
      (renderVLine [1]).getLast? = some ',' ∧
      (∀ c0, (joinComma (c.map fmt6)).head? = some c0 → isPySpace c0 = false) ∧
      (∀ x ∈ c, ∃ a b, fmt6 x = a ++ ('.' :: b) ∧ '.' ∉ a ∧ b.length = 6 ∧
        ∀ ch ∈ b, (digit? ch).isSome = true) :=
  (c4_vertices_block_format ⟨[1], []⟩).2 (renderVLine [1])
    (List.mem_singleton.mpr rfl)

/-- Rounding half to even is within one half of the value. -/
theorem rhe_sub_abs_le (q : ℚ) : |(rhe q : ℚ) - q| ≤ 1 / 2 := by
  have h1 : (⌊q⌋ : ℚ) ≤ q := Int.floor_le q
  have h2 : q < ⌊q⌋ + 1 := Int.lt_floor_add_one q
  unfold rhe
  by_cases hlt : q - ⌊q⌋ < 1 / 2
  · rw [if_pos hlt, abs_le]
    constructor <;> linarith
  · rw [if_neg hlt]
    by_cases hgt : 1 / 2 < q - ⌊q⌋
    · rw [if_pos hgt, abs_le]
      constructor <;> push_cast <;> linarith
    · rw [if_neg hgt]
      have heq : q - ⌊q⌋ = 1 / 2 := le_antisymm (not_lt.mp hgt) (not_lt.mp hlt)
      by_cases hev : ⌊q⌋ % 2 = 0
      · rw [if_pos hev, abs_le]
        constructor <;> linarith
      · rw [if_neg hev, abs_le]
        constructor <;> push_cast <;> linarith

/-- Re-parsing a `%.6f` rendering gives exactly the rounded value `n / 10^6`. -/
theorem pyFloat?_fmt6 (x : ℚ) :
    pyFloat? (fmt6 x) = some ((rhe (x * 1000000) : ℚ) / 1000000) := by
  set n := rhe (x * 1000000) with hn
  set a := n.natAbs with ha
  have hfr : a % 1000000 < 1000000 := Nat.mod_lt _ (by norm_num)
  have hdigits := natDigits_all_digits (a / 1000000)
  have htd1 : takeDigits (natDigits (a / 1000000) ++ ('.' :: sixFrac (a % 1000000))) =
      (a / 1000000, (natDigits (a / 1000000)).length, '.' :: sixFrac (a % 1000000)) := by
    have h := takeDigits_append (natDigits (a / 1000000)) ('.' :: sixFrac (a % 1000000))
      hdigits (fun c hc => by
        simp only [List.head?_cons, Option.some.injEq] at hc
        rw [← hc]
        rfl)
    rw [valOf_natDigits] at h
    exact h
  have htd2 : takeDigits (sixFrac (a % 1000000)) = (a % 1000000, 6, []) := by
    have h := takeDigits_all (sixFrac (a % 1000000)) (sixFrac_all_digits _)
    rw [valOf_sixFrac, sixFrac_length _ hfr] at h
    exact h
  have hni : (natDigits (a / 1000000)).length ≠ 0 := by
    obtain ⟨c0, cs0, hcc⟩ := List.exists_cons_of_ne_nil (natDigits_ne_nil (a / 1000000))
    rw [hcc]
    simp
  have hcore : ∀ sgn : ℚ,
      pyFloatCore sgn (a / 1000000) ((natDigits (a / 1000000)).length)
          ('.' :: sixFrac (a % 1000000)) =
        some (sgn * (((a / 1000000 : Nat) : ℚ) + ((a % 1000000 : Nat) : ℚ) / 10 ^ 6)) := by
    intro sgn
    simp only [pyFloatCore, htd2]
    rw [if_neg (by simp [hni])]
  have hval : ((a / 1000000 : Nat) : ℚ) + ((a % 1000000 : Nat) : ℚ) / 10 ^ 6 =
      (a : ℚ) / 1000000 := by
    have hmod : 1000000 * (a / 1000000) + a % 1000000 = a := Nat.div_add_mod a 1000000
    have hcast : 1000000 * ((a / 1000000 : Nat) : ℚ) + ((a % 1000000 : Nat) : ℚ) = (a : ℚ) := by
      exact_mod_cast congrArg (Nat.cast : Nat → ℚ) hmod
    have h10 : ((10 : ℚ) ^ 6) = 1000000 := by norm_num
    rw [h10]
    field_simp
    linarith
  by_cases hneg : n < 0
  · have hf : fmt6 x = '-' :: (natDigits (a / 1000000) ++ ('.' :: sixFrac (a % 1000000))) := by
      unfold fmt6
      rw [← hn, ← ha, if_pos hneg]
      rfl
    rw [hf]
    unfold pyFloat?
    simp only [stripNeg_dash, htd1]
    rw [hcore, hval]
    have hna : (a : ℚ) = -(n : ℚ) := by
      rw [ha]
      push_cast [Int.cast_natAbs]
      rw [abs_of_neg (by exact_mod_cast hneg)]
    rw [hna]
    norm_num
    ring
  · have hf : fmt6 x = natDigits (a / 1000000) ++ ('.' :: sixFrac (a % 1000000)) := by
      unfold fmt6
      rw [← hn, ← ha, if_neg hneg]
      rfl
    rw [hf]
    obtain ⟨c0, cs0, hcc⟩ := List.exists_cons_of_ne_nil (natDigits_ne_nil (a / 1000000))
    have hc0 : (digit? c0).isSome = true := hdigits c0 (by rw [hcc]; simp)
    unfold pyFloat?
    rw [hcc, List.cons_append]
    simp only [stripNeg_no_sign c0 (cs0 ++ ('.' :: sixFrac (a % 1000000)))
      (digit?_isSome_ne c0 '-' hc0 (by decide))
      (digit?_isSome_ne c0 '+' hc0 (by decide))]
    rw [← List.cons_append, ← hcc]
    simp only [htd1]
    rw [hcore, hval]
    have hna : (a : ℚ) = (n : ℚ) := by
      rw [ha]
      push_cast [Int.cast_natAbs]
      rw [abs_of_nonneg (by exact_mod_cast not_lt.mp hneg)]
    rw [hna]
    norm_num

/-- C5: for every (modelled) floating-point value in the intermediate data,
rendering it with the Renderer's 6-decimal format and re-parsing the resulting
literal recovers the original value to within 5e-7 absolute error (the
rendering rounds to the nearest multiple of 10^-6). -/
theorem c5_float_round_trip (x : ℚ) :
    ∃ y, pyFloat? (fmt6 x) = some y ∧ |y - x| ≤ 5 / 10000000 := by
  refine ⟨(rhe (x * 1000000) : ℚ) / 1000000, pyFloat?_fmt6 x, ?_⟩
  have hb := rhe_sub_abs_le (x * 1000000)
  have h6 : (rhe (x * 1000000) : ℚ) / 1000000 - x =
      ((rhe (x * 1000000) : ℚ) - x * 1000000) / 1000000 := by
    ring
  rw [h6, abs_div, show |(1000000 : ℚ)| = 1000000 from by norm_num]
  linarith

/-! ### Claims about the Extractor's reporting and the Renderer's effects -/

section
attribute [local semireducible] Rat.add Rat.mul Rat.inv Rat.sub

/-- C7: the Extractor reports the vertex count as `len(vertices) // 3` and the
triangle count as `len(indices) // 3` (truncating division; these are the
numbers printed in its two progress messages), and on the concrete document
containing `vertices: [1.0, 2.0, 3.0, 4.0, 5.0, 6.0]` and `faceTriIds: [0, 1, 2]`
it reports "Extracted 2 vertices" and "Extracted 1 triangles" and writes the
artifact with `vertices = [1,2,3,4,5,6]` and `indices = [0,1,2]`. -/
theorem c7_reported_counts_and_scenario :
    (∀ content vs inds msgs, runExtractor content = Except.ok (⟨vs, inds⟩, msgs) →
      msgs = [extractedVerticesMsg (vs.length / 3), extractedTrianglesMsg (inds.length / 3),
        savedMsg]) ∧
    runExtractor (("vertices: [1.0, 2.0, 3.0, 4.0, 5.0, 6.0]\nfaceTriIds: [0, 1, 2]\n").toList) =
      Except.ok (⟨[1, 2, 3, 4, 5, 6], [0, 1, 2]⟩,
        [("Extracted 2 vertices").toList, ("Extracted 1 triangles").toList, savedMsg]) := by
  constructor
  · intro content vs inds msgs h
    unfold runExtractor at h
    cases hv : vMatch content with
    | none =>
      simp only [hv] at h
      cases hi : iMatch content with
      | none => simp [hi] at h
      | some b =>
        simp only [hi] at h
        cases hp : parseAll pyInt? (pyTokens b) with
        | none => simp [hp] at h
        | some l => simp [hp] at h
    | some vb =>
      simp only [hv] at h
      cases hpv : parseAll pyFloat? (pyTokens vb) with
      | none => simp [hpv] at h
      | some vs0 =>
        simp only [hpv] at h
        cases hi : iMatch content with
        | none => simp [hi] at h
        | some ib =>
          simp only [hi] at h
          cases hp : parseAll pyInt? (pyTokens ib) with
          | none => simp [hp] at h
          | some is0 =>
            simp only [hp] at h
            simp only [Except.ok.injEq, Prod.mk.injEq, MeshData.mk.injEq] at h
            obtain ⟨⟨h1, h2⟩, h3⟩ := h
            subst h1
            subst h2
            subst h3
            rfl
  · rfl

/-- Witness for C7's general part, applied to the concrete scenario run. -/
theorem c7_reported_counts_and_scenario_witness :
    [("Extracted 2 vertices").toList, ("Extracted 1 triangles").toList, savedMsg] =
      [extractedVerticesMsg (([1, 2, 3, 4, 5, 6] : List ℚ).length / 3),
        extractedTrianglesMsg (([0, 1, 2] : List ℤ).length / 3), savedMsg] :=
  c7_reported_counts_and_scenario.1
    (("vertices: [1.0, 2.0, 3.0, 4.0, 5.0, 6.0]\nfaceTriIds: [0, 1, 2]\n").toList)
    [1, 2, 3, 4, 5, 6] [0, 1, 2]
    [("Extracted 2 vertices").toList, ("Extracted 1 triangles").toList, savedMsg]
    c7_reported_counts_and_scenario.2

end

/-- C8: the Renderer is idempotent and a deterministic function of the
intermediate file: running it twice on an unchanged intermediate file produces
byte-identical output, and the output is fully overwritten — it does not
depend on the output file's prior contents. -/
theorem c8_renderer_idempotent_overwrite :
    (∀ fs : FS, rendererRun (rendererRun fs) = rendererRun fs) ∧
    (∀ fs1 fs2 : FS, fs1.clothData = fs2.clothData →
      (rendererRun fs1).swiftFile = (rendererRun fs2).swiftFile) := by
  constructor
  · intro fs
    rfl
  · intro fs1 fs2 h
    unfold rendererRun
    rw [h]

/-- Witness for C8: same intermediate contents, different prior output files,
identical rendered output. -/
theorem c8_renderer_idempotent_overwrite_witness :
    (rendererRun ⟨⟨[1], [0]⟩, ("old").toList⟩).swiftFile =
      (rendererRun ⟨⟨[1], [0]⟩, ("something else").toList⟩).swiftFile :=
  c8_renderer_idempotent_overwrite.2 ⟨⟨[1], [0]⟩, ("old").toList⟩
    ⟨⟨[1], [0]⟩, ("something else").toList⟩ rfl

/-- C9: the Renderer reads the intermediate artifact once into `data` and
never writes it: after a Renderer run the intermediate MeshData file's
contents are unchanged, and the run's only effect is to set the Swift file to
the rendering of those contents. -/
theorem c9_renderer_leaves_intermediate_unchanged (fs : FS) :
    (rendererRun fs).clothData = fs.clothData ∧
    (rendererRun fs).swiftFile = renderSwift fs.clothData :=
  ⟨rfl, rfl⟩

end Elements
